import Mathlib

/-!
Shallow embedding of the mood-analysis pipeline in
`src/app/api/mood/route.ts` (with the variant pipeline in
`src/unnamed/part_000` where the two differ).

Strings are modelled as Lean `String` (lists of characters); the
JavaScript regular-expression replacements used by `cleanSlackText` are
implemented as fuel-indexed scanners that mirror the leftmost,
non-overlapping, advance-one-on-failure semantics of
`String.prototype.replace` with a global regex.  Machine numbers
(`Date.now() / 1000`, Slack fractional timestamps) are modelled as `Rat`.
External effects (Slack HTTP calls, the OpenAI call, `JSON.parse`) are
modelled as explicit inputs in an `Env` record.
-/

/-- Characters matched by the JavaScript regex class backslash-s
(ECMAScript WhiteSpace plus LineTerminator), also the set removed by
`String.prototype.trim`. -/
def jsWsChars : List Char :=
  [Char.ofNat 9, Char.ofNat 10, Char.ofNat 11, Char.ofNat 12, Char.ofNat 13,
   ' ', Char.ofNat 0xA0, Char.ofNat 0x1680,
   Char.ofNat 0x2000, Char.ofNat 0x2001, Char.ofNat 0x2002, Char.ofNat 0x2003,
   Char.ofNat 0x2004, Char.ofNat 0x2005, Char.ofNat 0x2006, Char.ofNat 0x2007,
   Char.ofNat 0x2008, Char.ofNat 0x2009, Char.ofNat 0x200A,
   Char.ofNat 0x2028, Char.ofNat 0x2029, Char.ofNat 0x202F,
   Char.ofNat 0x205F, Char.ofNat 0x3000, Char.ofNat 0xFEFF]

/-- Whether a character is JavaScript whitespace. -/
def isJsWs (c : Char) : Bool := jsWsChars.contains c

/-- One step of the regex replacement of backslash-s-plus by a single
space: a maximal whitespace run collapses to one `' '`. -/
def collapseWs : List Char → List Char
  | [] => []
  | [c] => if isJsWs c then [' '] else [c]
  | c1 :: c2 :: cs =>
    if isJsWs c1 && isJsWs c2 then collapseWs (c2 :: cs)
    else (if isJsWs c1 then ' ' else c1) :: collapseWs (c2 :: cs)

/-- JavaScript `String.prototype.trim`: drop whitespace from both ends. -/
def trimJs (l : List Char) : List Char :=
  ((l.dropWhile isJsWs).reverse.dropWhile isJsWs).reverse

/-- Generic scanner for a global regex replacement by the empty string:
at each position try the matcher; on a match (which returns the suffix
after the match) drop the matched text and continue there, otherwise keep
one character and advance.  Fuel bounds the recursion; fuel equal to the
input length suffices because every step consumes at least one
character. -/
def stripScan (m : List Char → Option (List Char)) : Nat → List Char → List Char
  | 0, l => l
  | _ + 1, [] => []
  | fuel + 1, c :: cs =>
    match m (c :: cs) with
    | some rest => stripScan m fuel rest
    | none => c :: stripScan m fuel cs

/-- Run a stripping replacement over a whole character list. -/
def runStrip (m : List Char → Option (List Char)) (l : List Char) : List Char :=
  stripScan m l.length l

/-- Generic scanner for a global replacement of a fixed nonempty literal
by a fixed string. -/
def replScan (lit rep : List Char) : Nat → List Char → List Char
  | 0, l => l
  | _ + 1, [] => []
  | fuel + 1, c :: cs =>
    if lit.isPrefixOf (c :: cs) then
      rep ++ replScan lit rep fuel ((c :: cs).drop lit.length)
    else c :: replScan lit rep fuel cs

/-- Run a literal replacement over a whole character list. -/
def runRepl (lit rep : List Char) (l : List Char) : List Char :=
  replScan lit rep l.length l

/-- Shared tail of the three angle-bracket matchers: after the opening
literal, match one-or-more characters other than a closing bracket, then
the closing bracket, and return the suffix after it.  This is exactly how
the greedy class `[^>]+` follows an opening literal in the source
regexes. -/
def afterAngleBody (cs : List Char) : Option (List Char) :=
  let body := cs.takeWhile (fun c => !(c == '>'))
  if body.isEmpty then none
  else
    match cs.drop body.length with
    | '>' :: rest => some rest
    | _ => none

/-- Matcher for the regex stripping user mentions (open bracket, at sign,
one-or-more non-closing characters, close bracket). -/
def matchMention : List Char → Option (List Char)
  | '<' :: '@' :: cs => afterAngleBody cs
  | _ => none

/-- Matcher for the regex stripping raw links (open bracket, the literal
letters h t t p, one-or-more non-closing characters, close bracket). -/
def matchHttp : List Char → Option (List Char)
  | '<' :: 'h' :: 't' :: 't' :: 'p' :: cs => afterAngleBody cs
  | _ => none

/-- Matcher for the regex stripping generic angle-bracket tokens. -/
def matchAngle : List Char → Option (List Char)
  | '<' :: cs => afterAngleBody cs
  | _ => none

/-- Character class of the emoji-code regex body: lowercase letters,
digits, underscore, plus, minus. -/
def emojiBodyChar (c : Char) : Bool :=
  ('a' ≤ c && c ≤ 'z') || ('0' ≤ c && c ≤ '9') || c == '_' || c == '+' || c == '-'

/-- Matcher for the emoji-code regex: colon, one-or-more body characters,
colon.  The body class excludes the colon, so the greedy run never
backtracks. -/
def matchEmoji : List Char → Option (List Char)
  | ':' :: cs =>
    let body := cs.takeWhile emojiBodyChar
    if body.isEmpty then none
    else
      match cs.drop body.length with
      | ':' :: rest => some rest
      | _ => none
  | _ => none

/-- Character-list version of `cleanSlackText` from
`src/app/api/mood/route.ts`: strip mentions, links, angle tokens, decode
the three entity escapes, strip emoji codes, collapse whitespace,
trim. -/
def cleanList (l : List Char) : List Char :=
  let s1 := runStrip matchMention l
  let s2 := runStrip matchHttp s1
  let s3 := runStrip matchAngle s2
  let s4 := runRepl ['&', 'a', 'm', 'p', ';'] ['&'] s3
  let s5 := runRepl ['&', 'l', 't', ';'] ['<'] s4
  let s6 := runRepl ['&', 'g', 't', ';'] ['>'] s5
  let s7 := runStrip matchEmoji s6
  trimJs (collapseWs s7)

/-- Character-list version of the `cleanSlackText` variant in
`src/unnamed/part_000`, which performs the same passes but keeps emoji
codes (its source comment: keep emoji codes, the model needs to see
them). -/
def cleanListKeep (l : List Char) : List Char :=
  let s1 := runStrip matchMention l
  let s2 := runStrip matchHttp s1
  let s3 := runStrip matchAngle s2
  let s4 := runRepl ['&', 'a', 'm', 'p', ';'] ['&'] s3
  let s5 := runRepl ['&', 'l', 't', ';'] ['<'] s4
  let s6 := runRepl ['&', 'g', 't', ';'] ['>'] s5
  trimJs (collapseWs s6)

/-- The `cleanSlackText` of `src/app/api/mood/route.ts`. -/
def cleanSlackText (s : String) : String := ⟨cleanList s.data⟩

/-- The `cleanSlackText` variant of `src/unnamed/part_000` (no
emoji-code stripping). -/
def cleanSlackTextV2 (s : String) : String := ⟨cleanListKeep s.data⟩

/-- JavaScript `startsWith`, on character data. -/
def strStartsWith (s p : String) : Bool := p.data.isPrefixOf s.data

/-- JavaScript `drop` of the first `n` units of a string (used to model
removing the first occurrence of a known leading literal). -/
def strDrop (s : String) (n : Nat) : String := ⟨s.data.drop n⟩

/-- JavaScript `substring(0, n)`. -/
def strTake (s : String) (n : Nat) : String := ⟨s.data.take n⟩

/-- JavaScript `Array.prototype.join` with a single-space separator. -/
def joinSpace : List String → String
  | [] => ""
  | [s] => s
  | s :: rest => s ++ " " ++ joinSpace rest

/-- JavaScript plain-object string map, modelled as an association list
where an assignment shadows earlier entries with the same key. -/
abbrev OMap := List (String × String)

/-- Property read `map[key]`: the most recent assignment, if any. -/
def OMap.get (m : OMap) (k : String) : Option String :=
  (m.find? (fun p => p.1 == k)).map (fun p => p.2)

/-- Property write `map[key] = value`. -/
def OMap.set (m : OMap) (k v : String) : OMap := (k, v) :: m

/-- An emoji name wrapped in colons, as the source builds map keys. -/
def emojiColon (name : String) : String := ":" ++ name ++ ":"

/-- The static table returned by `getBasicEmojiMap` in
`src/app/api/mood/route.ts`. -/
def basicEmojiMap : OMap :=
  [(":pray:", "🙏"), (":cry:", "😢"), (":sob:", "😭"),
   (":disappointed:", "😞"), (":broken_heart:", "💔"), (":heart:", "❤️"),
   (":clap:", "👏"), (":party_blob:", "🎉"), (":partying_face:", "🥳"),
   (":joy:", "😂"), (":raised_hands:", "🙌"), (":fire:", "🔥"),
   (":thumbsup:", "👍"), (":+1:", "👍"), (":thumbsdown:", "👎"),
   (":-1:", "👎"), (":tada:", "🎊"), (":star:", "⭐"), (":100:", "💯"),
   (":muscle:", "💪"), (":sparkles:", "✨"), (":rocket:", "🚀"),
   (":eyes:", "👀"), (":thinking_face:", "🤔"), (":thinking:", "🤔"),
   (":sweat_smile:", "😅"), (":scream:", "😱"), (":worried:", "😟"),
   (":fearful:", "😨"), (":weary:", "😩"), (":pensive:", "😔"),
   (":relieved:", "😌"), (":triumph:", "😤"), (":persevere:", "😣"),
   (":confounded:", "😖"), (":rage:", "😡"), (":angry:", "😠"),
   (":smile:", "😊"), (":grin:", "😁"), (":laughing:", "😆"),
   (":blush:", "😊"), (":wink:", "😉"), (":heart_eyes:", "😍"),
   (":kissing_heart:", "😘"), (":sunglasses:", "😎"), (":smirk:", "😏"),
   (":innocent:", "😇"), (":nerd_face:", "🤓"), (":face_with_monocle:", "🧐"),
   (":star_struck:", "🤩"), (":upside_down_face:", "🙃"),
   (":slightly_smiling_face:", "🙂"), (":grimacing:", "😬"),
   (":neutral_face:", "😐"), (":expressionless:", "😑"),
   (":confused:", "😕"), (":frowning:", "☹️"),
   (":slightly_frowning_face:", "🙁"), (":unamused:", "😒")]

/-- The source's `getUnicodeForEmojiName`: the basic-table glyph when the
table has a truthy entry, otherwise the name wrapped in colons.  The
emptiness test models JavaScript truthiness of the looked-up string. -/
def getUnicodeForEmojiName (name : String) : String :=
  match basicEmojiMap.get (emojiColon name) with
  | some basic => if basic = "" then emojiColon name else basic
  | none => emojiColon name

/-- One iteration of the directory-construction loop in
`fetchSlackEmojis`: an alias value resolves to the already-built map's
entry for the target when that entry is truthy, else to
`getUnicodeForEmojiName` of the target; an image URL maps the name to its
own colon code; anything else maps through `getUnicodeForEmojiName`. -/
def dirStep (acc : OMap) (nv : String × String) : OMap :=
  if strStartsWith nv.2 "alias:" then
    let aliasName := strDrop nv.2 6
    let v :=
      match acc.get (emojiColon aliasName) with
      | some w => if w = "" then getUnicodeForEmojiName aliasName else w
      | none => getUnicodeForEmojiName aliasName
    acc.set (emojiColon nv.1) v
  else if strStartsWith nv.2 "http" then
    acc.set (emojiColon nv.1) (emojiColon nv.1)
  else
    acc.set (emojiColon nv.1) (getUnicodeForEmojiName nv.1)

/-- The map built from the fetched emoji directory by the enumeration
loop in `fetchSlackEmojis` (the directory is a parsed JSON object, so its
names are pairwise distinct and its values are strings). -/
def buildDirMap (entries : List (String × String)) : OMap :=
  entries.foldl dirStep []

/-- Response of the external emoji-directory API. -/
structure EmojiListResp where
  ok : Bool
  error : Option String
  emoji : List (String × String)
deriving DecidableEq

/-- Result of `fetchSlackEmojis` on a cold cache: the basic table when
the fetch throws (`none`) or returns a non-success status, otherwise the
directory map spread over the basic table (directory entries win).  The
spread merge is modelled by lookup priority. -/
def fetchSlackEmojisResult (outcome : Option EmojiListResp) : OMap :=
  match outcome with
  | none => basicEmojiMap
  | some resp =>
    if !resp.ok then basicEmojiMap
    else buildDirMap resp.emoji ++ basicEmojiMap

/-- The source's `convertSlackEmojiToUnicode`, applied to the map the
emoji fetch produced: the looked-up value when truthy, else the input
code unchanged. -/
def convertSlackEmojiToUnicode (emojiMap : OMap) (emojiCode : String) : String :=
  match emojiMap.get emojiCode with
  | some v => if v = "" then emojiCode else v
  | none => emojiCode

/-- The result record the oracle is asked for (`mood_label` is kept as a
raw string because nothing at runtime validates the enumeration). -/
structure MoodAnalysis where
  mood_score : Rat
  mood_label : String
  summary : String
  positive_signals : List String
  negative_signals : List String
  top_emojis : List String
deriving DecidableEq

/-- A playlist table entry. -/
structure Playlist where
  name : String
  url : String
deriving DecidableEq

/-- The source's `playlistsForMood`: the five-key static record lookup
with the defensive Neutral default. -/
def playlistsForMood (moodLabel : String) : Playlist :=
  if moodLabel = "Chaos" then
    ⟨"Calm Lo-Fi Focus", "https://open.spotify.com/playlist/37i9dQZF1DX3Ogo9pFvBkY"⟩
  else if moodLabel = "Stressed" then
    ⟨"Chill Hits", "https://open.spotify.com/playlist/37i9dQZF1DX4WYpdgoIcn6"⟩
  else if moodLabel = "Neutral" then
    ⟨"Easy Indie", "https://open.spotify.com/playlist/37i9dQZF1DX2Nc3B70tvx0"⟩
  else if moodLabel = "Good" then
    ⟨"Feel Good Pop", "https://open.spotify.com/playlist/37i9dQZF1DXdPec7aLTmlC"⟩
  else if moodLabel = "Vibes" then
    ⟨"Office Party Bangers", "https://open.spotify.com/playlist/37i9dQZF1DXaXB8fQg7xif"⟩
  else
    ⟨"Easy Indie", "https://open.spotify.com/playlist/37i9dQZF1DX2Nc3B70tvx0"⟩

/-- A raw Slack history entry as the route reads it.  `has_files` models
truthiness of the `files` field (any present attachment list is truthy),
`ts` is the numeric value `parseFloat` yields from the wire timestamp
(`none` when the field is absent, in which case the source parses the
literal zero string), `reactions` is the list of reaction names when the
field is present. -/
structure RawMessage where
  type : String
  subtype : Option String
  bot_id : Option String
  has_files : Bool
  text : String
  ts : Option Rat
  reactions : Option (List String)
deriving DecidableEq

/-- Response of the per-channel history API. -/
structure ChannelResp where
  ok : Bool
  error : Option String
  messages : Option (List RawMessage)
deriving DecidableEq

/-- The source's `MessageWithTimestamp`. -/
structure CleanedMessage where
  text : String
  timestamp : Rat
deriving DecidableEq

/-- The filter-and-clean chain of `fetchSlackMessagesFromChannel` in
`src/app/api/mood/route.ts`: ordinary messages, allowed subtypes (a falsy
subtype or a thread broadcast), no automation author, no attachments,
truthy text; then clean, annotate with reactions when present and
nonempty, parse the timestamp, and keep cleaned texts longer than three
units. -/
def processChannelMessages (msgs : List RawMessage) : List CleanedMessage :=
  let typeFiltered := msgs.filter (fun m => m.type == "message")
  let subtypeFiltered := typeFiltered.filter (fun m =>
    match m.subtype with
    | none => true
    | some s => s == "" || s == "thread_broadcast")
  let botFiltered := subtypeFiltered.filter (fun m =>
    match m.bot_id with
    | none => true
    | some b => b == "")
  let fileFiltered := botFiltered.filter (fun m => !m.has_files)
  let textMessages := fileFiltered.filter (fun m => !(m.text == ""))
  let cleaned := textMessages.map (fun m =>
    let text := cleanSlackText m.text
    let finalText :=
      match m.reactions with
      | some rs =>
        if rs.length > 0 then
          text ++ " [Reactions: " ++ joinSpace (rs.map emojiColon) ++ "]"
        else text
      | none => text
    ({ text := finalText, timestamp := m.ts.getD 0 } : CleanedMessage))
  cleaned.filter (fun m => m.text.length > 3)

/-- Error text thrown for a non-success channel fetch; an absent upstream
error field prints as the JavaScript undefined placeholder inside the
template literal. -/
def slackChannelError (channelId : String) (err : Option String) : String :=
  "Slack error for channel " ++ channelId ++ ": " ++ err.getD "undefined"

/-- The source's `fetchSlackMessagesFromChannel`, as a function of the
channel identifier and the history response the external API returned for
it. -/
def fetchSlackMessagesFromChannel (channelId : String) (resp : ChannelResp) :
    Except String (List CleanedMessage) :=
  if !resp.ok then .error (slackChannelError channelId resp.error)
  else .ok (processChannelMessages (resp.messages.getD []))

/-- JavaScript `split` on a comma. -/
def splitCommaList : List Char → List (List Char)
  | [] => [[]]
  | c :: cs =>
    if c == ',' then [] :: splitCommaList cs
    else
      match splitCommaList cs with
      | [] => [[c]]
      | r :: rs => (c :: r) :: rs

/-- The channel-identifier configuration parse:
`process.env.SLACK_CHANNEL_IDS.split(',').map(id => id.trim())`. -/
def parseChannelIds (raw : String) : List String :=
  (splitCommaList raw.data).map (fun l => ⟨trimJs l⟩)

/-- Stable descending insertion by timestamp: a later-processed element
goes after every already-placed element whose timestamp is not smaller. -/
def insertByTsDesc (m : CleanedMessage) : List CleanedMessage → List CleanedMessage
  | [] => [m]
  | x :: xs => if x.timestamp < m.timestamp then m :: x :: xs else x :: insertByTsDesc m xs

/-- The global sort `flatMessages.sort((a, b) => b.timestamp - a.timestamp)`,
a stable descending sort by timestamp (stable sorting against a total
preorder determines the result uniquely, so any stable algorithm models
the runtime sort). -/
def sortByTsDesc (l : List CleanedMessage) : List CleanedMessage :=
  l.foldl (fun acc m => insertByTsDesc m acc) []

/-- Seconds in the most-recent-tier window (24 hours). -/
def oneDaySecs : Rat := 24 * 60 * 60

/-- Seconds in the middle-tier window (7 days). -/
def oneWeekSecs : Rat := 7 * 24 * 60 * 60

/-- The recency tier weight a message receives in the weighting loop of
`fetchSlackFromMultipleChannels`: strictly newer than one day ago gives
three, strictly newer than one week ago gives two, else one. -/
def tierWeight (now ts : Rat) : Nat :=
  if now - oneDaySecs < ts then 3
  else if now - oneWeekSecs < ts then 2
  else 1

/-- The weighting loop itself: for each message push its text three, two
or one times onto the output array. -/
def weightedExpand (now : Rat) : List CleanedMessage → List String
  | [] => []
  | m :: rest =>
    (if now - oneDaySecs < m.timestamp then [m.text, m.text, m.text]
     else if now - oneWeekSecs < m.timestamp then [m.text, m.text]
     else [m.text]) ++ weightedExpand now rest

/-- Error payload of the completion oracle: the optional `message` field
and the serialized form `JSON.stringify` would produce for the whole
error object (used when the message is falsy). -/
structure OracleError where
  message : Option String
  raw : String
deriving DecidableEq

/-- Response of the completion oracle: its optional error object and the
content at `choices[0].message.content` when present and truthy. -/
structure OracleResp where
  error : Option OracleError
  content : Option String
deriving DecidableEq

/-- All external inputs one request can observe: the raw channel-list
configuration string, the history response per channel, the outcome of
the emoji-directory fetch (`none` models a thrown transport error), the
oracle response, the runtime JSON parser applied to the oracle content
(`JSON.parse` plus the unchecked cast to the result shape; `none` models
a parse exception), the current time in seconds, and the formatted
response timestamp. -/
structure Env where
  channelIdsRaw : String
  slackResp : String → ChannelResp
  emojiFetch : Option EmojiListResp
  oracle : OracleResp
  parseJson : String → Option MoodAnalysis
  now : Rat
  nowIso : String

/-- The `Promise.all` fan-out over the channel list: the per-channel
results in order, or the first rejection. -/
def allChannels (resp : String → ChannelResp) : List String → Except String (List (List CleanedMessage))
  | [] => .ok []
  | c :: rest =>
    match fetchSlackMessagesFromChannel c (resp c), allChannels resp rest with
    | .error e, _ => .error e
    | .ok _, .error e => .error e
    | .ok ms, .ok rest' => .ok (ms :: rest')

/-- The fan-out, fan-in, flatten and global sort of
`fetchSlackFromMultipleChannels` before weighting.  The parallel
`Promise.all` is modelled by a traversal whose first failure in channel
order rejects the whole aggregation. -/
def aggregateChannels (env : Env) : Except String (List CleanedMessage) :=
  (allChannels env.slackResp (parseChannelIds env.channelIdsRaw)).map
    (fun perChannel => sortByTsDesc perChannel.flatten)

/-- The source's `fetchSlackFromMultipleChannels`: aggregate, then expand
by recency weight. -/
def fetchSlackFromMultipleChannels (env : Env) : Except String (List String) :=
  (aggregateChannels env).map (fun sorted => weightedExpand env.now sorted)

/-- Message thrown when the oracle returns no usable content. -/
def noContentError : String := "OpenAI returned no content"

/-- Message thrown when the oracle content does not parse as JSON: a
fixed marker followed by the first hundred units of the content and an
ellipsis. -/
def parseFailureError (content : String) : String :=
  "Failed to parse OpenAI response as JSON: " ++ strTake content 100 ++ "..."

/-- Message thrown when the oracle response carries an error object: a
fixed prefix followed by the error's message when truthy, else the
serialized error object. -/
def openAIErrorMsg (e : OracleError) : String :=
  "OpenAI API error: " ++
    (match e.message with
     | some m => if m = "" then e.raw else m
     | none => e.raw)

/-- The source's `analyzeWithOpenAI`, as a function of the oracle
response recorded in the environment (the `messages` argument only flows
into the prompt sent to the external oracle): fail on an oracle error,
then on missing content, then on a parse failure; otherwise rewrite
`top_emojis` through the emoji directory. -/
def analyzeWithOpenAI (env : Env) (messages : List String) : Except String MoodAnalysis :=
  let _promptLines := messages.map (fun m => "- " ++ m)
  match env.oracle.error with
  | some e => .error (openAIErrorMsg e)
  | none =>
    match env.oracle.content with
    | none => .error noContentError
    | some content =>
      match env.parseJson content with
      | none => .error (parseFailureError content)
      | some parsed =>
        .ok { parsed with
              top_emojis := parsed.top_emojis.map
                (convertSlackEmojiToUnicode (fetchSlackEmojisResult env.emojiFetch)) }

/-- The success payload of the endpoint: the analysis fields spread with
the playlist, the weighted sample size and the generation timestamp. -/
structure MoodPayload where
  analysis : MoodAnalysis
  playlist : Playlist
  sample_size : Nat
  generated_at : String
deriving DecidableEq

/-- Body of the endpoint response: the success payload or the error
object the catch-all builds. -/
inductive ResponseBody where
  | payload (p : MoodPayload)
  | errorObj (message : String)
deriving DecidableEq

/-- An HTTP response of the endpoint. -/
structure HttpResponse where
  status : Nat
  body : ResponseBody
deriving DecidableEq

/-- The exported `GET` handler: run the aggregation, run the classifier
adapter, attach playlist, sample size and timestamp; any thrown error is
caught once and becomes a status-500 error object whose string is the
thrown message. -/
def GET (env : Env) : HttpResponse :=
  match fetchSlackFromMultipleChannels env with
  | .error e => ⟨500, .errorObj e⟩
  | .ok msgs =>
    match analyzeWithOpenAI env msgs with
    | .error e => ⟨500, .errorObj e⟩
    | .ok mood =>
      ⟨200, .payload ⟨mood, playlistsForMood mood.mood_label, msgs.length, env.nowIso⟩⟩

/-- C1: the spec requires cleaned text to retain emoji-code tokens
verbatim.  The route's `cleanSlackText` strips them (its seventh
replacement erases every colon-delimited code), while the variant
`cleanSlackText` in `src/unnamed/part_000` — whose source comment states
the intent of keeping emoji codes for the classifier — retains them:
evaluated at the failing input, the route erases the token the claim says
must survive. -/
theorem cleanSlackText_strips_emoji_codes :
    cleanSlackText "great news :tada:" = "great news"
    ∧ cleanSlackTextV2 "great news :tada:" = "great news :tada:" :=
  ⟨by decide, by decide⟩

/-- C4 counterexample: normalization is not idempotent.  Entity decoding
runs after markup stripping, so an escaped angle token survives the first
pass as a literal angle token and is stripped by the second pass. -/
theorem cleanSlackText_not_idempotent :
    cleanSlackText (cleanSlackText "&lt;x&gt;") ≠ cleanSlackText "&lt;x&gt;" := by
  decide

/-- C2: the weighting loop appends each message's text exactly three
times when its timestamp is strictly above the one-day threshold, exactly
two times strictly between the one-week and one-day thresholds, and once
otherwise; a timestamp exactly at a threshold falls to the lower tier. -/
theorem weightedExpand_tier_counts (now : Rat) (msgs : List CleanedMessage) :
    weightedExpand now msgs
      = (msgs.map (fun m => List.replicate (tierWeight now m.timestamp) m.text)).flatten
    ∧ (∀ ts : Rat, now - oneDaySecs < ts → tierWeight now ts = 3)
    ∧ (∀ ts : Rat, now - oneWeekSecs < ts → ts ≤ now - oneDaySecs → tierWeight now ts = 2)
    ∧ (∀ ts : Rat, ts ≤ now - oneWeekSecs → tierWeight now ts = 1)
    ∧ tierWeight now (now - oneDaySecs) = 2
    ∧ tierWeight now (now - oneWeekSecs) = 1 := by
  refine ⟨?_, ?_, ?_, ?_, ?_, ?_⟩
  · induction msgs with
    | nil => rfl
    | cons m rest ih =>
      simp only [weightedExpand, tierWeight, List.map_cons, List.flatten_cons, ih]
      split
      · rfl
      · split <;> rfl
  · intro ts h
    simp [tierWeight, h]
  · intro ts h1 h2
    have : ¬ (now - oneDaySecs < ts) := not_lt.mpr h2
    simp [tierWeight, this, h1]
  · intro ts h
    have h1 : ¬ (now - oneWeekSecs < ts) := not_lt.mpr h
    have h2 : ¬ (now - oneDaySecs < ts) := by
      refine not_lt.mpr (le_trans h ?_)
      have : oneDaySecs ≤ oneWeekSecs := by norm_num [oneDaySecs, oneWeekSecs]
      linarith
    simp [tierWeight, h1, h2]
  · have h2 : ¬ (now - oneDaySecs < now - oneDaySecs) := lt_irrefl _
    have h1 : now - oneWeekSecs < now - oneDaySecs := by
      have : oneDaySecs < oneWeekSecs := by norm_num [oneDaySecs, oneWeekSecs]
      linarith
    simp [tierWeight, h1, h2]
  · have h1 : ¬ (now - oneWeekSecs < now - oneWeekSecs) := lt_irrefl _
    have h2 : ¬ (now - oneDaySecs < now - oneWeekSecs) := by
      refine not_lt.mpr ?_
      have : oneDaySecs ≤ oneWeekSecs := by norm_num [oneDaySecs, oneWeekSecs]
      linarith
    simp [tierWeight, h1, h2]

/-- C2 witness: concrete tier counts and a concrete expansion obtained
from the tier theorem. -/
theorem weightedExpand_tier_counts_witness :
    weightedExpand 1000000 [⟨"a", 999999⟩, ⟨"b", 900000⟩, ⟨"c", 0⟩]
      = ["a", "a", "a", "b", "b", "c"]
    ∧ tierWeight 1000000 (1000000 - oneDaySecs) = 2
    ∧ tierWeight 1000000 (1000000 - oneWeekSecs) = 1 := by
  have h := weightedExpand_tier_counts 1000000 [⟨"a", 999999⟩, ⟨"b", 900000⟩, ⟨"c", 0⟩]
  have t1 : tierWeight 1000000 999999 = 3 :=
    h.2.1 999999 (by norm_num [oneDaySecs])
  have t2 : tierWeight 1000000 900000 = 2 :=
    h.2.2.1 900000 (by norm_num [oneWeekSecs]) (by norm_num [oneDaySecs])
  have t3 : tierWeight 1000000 0 = 1 :=
    h.2.2.2.1 0 (by norm_num [oneWeekSecs])
  refine ⟨?_, h.2.2.2.2.1, h.2.2.2.2.2⟩
  rw [h.1]
  simp only [List.map_cons, List.map_nil, t1, t2, t3]
  decide

/-- C9: playlist lookup is total with a defensive default — each of the
five mood labels maps to a fixed entry with a nonempty name and a
well-formed secure URL, and any other string maps to the Neutral
entry. -/
theorem playlistsForMood_total_default :
    (∀ l ∈ ["Chaos", "Stressed", "Neutral", "Good", "Vibes"],
        (playlistsForMood l).name ≠ ""
          ∧ strStartsWith (playlistsForMood l).url "https://" = true
          ∧ (playlistsForMood l).url ≠ "https://")
    ∧ ∀ s : String, s ∉ ["Chaos", "Stressed", "Neutral", "Good", "Vibes"] →
        playlistsForMood s = playlistsForMood "Neutral" := by
  constructor
  · decide
  · intro s hs
    simp only [List.mem_cons, List.not_mem_nil, or_false, not_or] at hs
    obtain ⟨h1, h2, h3, h4, h5⟩ := hs
    simp [playlistsForMood, h1, h2, h3, h4, h5]

/-- C9 witness: an out-of-enum label falls back to the Neutral entry, and
a defined label has a nonempty name. -/
theorem playlistsForMood_total_default_witness :
    playlistsForMood "PartyChaosNope" = playlistsForMood "Neutral"
    ∧ (playlistsForMood "Vibes").name ≠ "" :=
  ⟨playlistsForMood_total_default.2 "PartyChaosNope" (by decide),
   (playlistsForMood_total_default.1 "Vibes" (by decide)).1⟩

/-- When some channel in the list fails, the fan-in rejects with the
error of the first failing channel. -/
theorem allChannels_error_of_find (resp : String → ChannelResp) (ids : List String) (c : String)
    (h : ids.find? (fun ch => !(resp ch).ok) = some c) :
    allChannels resp ids = .error (slackChannelError c (resp c).error) := by
  induction ids with
  | nil => simp at h
  | cons i rest ih =>
    by_cases hok : (resp i).ok
    · have hfind : rest.find? (fun ch => !(resp ch).ok) = some c := by
        simpa [List.find?, hok] using h
      have hi : fetchSlackMessagesFromChannel i (resp i)
          = .ok (processChannelMessages ((resp i).messages.getD [])) := by
        simp [fetchSlackMessagesFromChannel, hok]
      simp [allChannels, hi, ih hfind]
    · have hci : c = i := by
        have := h
        simp [List.find?, hok] at this
        exact this.symm
      subst hci
      have hi : fetchSlackMessagesFromChannel c (resp c)
          = .error (slackChannelError c (resp c).error) := by
        simp [fetchSlackMessagesFromChannel, hok]
      simp [allChannels, hi]

/-- C6: a non-success history response for any channel aborts the whole
aggregation with no partial results; the error names the first offending
channel (in channel order) and the upstream reason, and the endpoint
turns it into a status-500 error-object response carrying exactly that
message. -/
theorem channelFailure_aborts_500 (env : Env) (c : String)
    (hc : (parseChannelIds env.channelIdsRaw).find?
        (fun ch => !(env.slackResp ch).ok) = some c) :
    GET env = ⟨500, .errorObj (slackChannelError c (env.slackResp c).error)⟩
    ∧ (env.slackResp c).ok = false := by
  have hmem := List.find?_some hc
  have hokc : (env.slackResp c).ok = false := by
    simpa using hmem
  have h := allChannels_error_of_find env.slackResp _ c hc
  exact ⟨by simp [GET, fetchSlackFromMultipleChannels, aggregateChannels, h, Except.map], hokc⟩

/-- Environment reproducing the spec scenario for C6: the second channel
replies with an invalid-auth failure. -/
def envChannelFail : Env where
  channelIdsRaw := "C01, CBAD"
  slackResp := fun ch =>
    if ch = "CBAD" then ⟨false, some "invalid_auth", none⟩ else ⟨true, none, some []⟩
  emojiFetch := none
  oracle := ⟨none, none⟩
  parseJson := fun _ => none
  now := 0
  nowIso := "t"

/-- C6 witness: the endpoint answers 500 with an error string naming the
failing channel and the upstream reason. -/
theorem channelFailure_aborts_500_witness :
    GET envChannelFail = ⟨500, .errorObj "Slack error for channel CBAD: invalid_auth"⟩
    ∧ (envChannelFail.slackResp "CBAD").ok = false := by
  have h := channelFailure_aborts_500 envChannelFail "CBAD" (by decide)
  refine ⟨?_, h.2⟩
  rw [h.1]
  decide

/-- C7: when the oracle response carries an error object with a truthy
message, the endpoint answers 500 with that message behind the fixed
prefix. -/
theorem oracleError_prefixed_500 (env : Env) (msgs : List String) (e : OracleError) (m : String)
    (hagg : fetchSlackFromMultipleChannels env = .ok msgs)
    (he : env.oracle.error = some e)
    (hm : e.message = some m) (hm0 : m ≠ "") :
    GET env = ⟨500, .errorObj ("OpenAI API error: " ++ m)⟩ := by
  have hmsg : openAIErrorMsg e = "OpenAI API error: " ++ m := by
    simp [openAIErrorMsg, hm, hm0]
  simp [GET, hagg, analyzeWithOpenAI, he, hmsg]

/-- Environment reproducing the spec scenario for C7: aggregation
succeeds and the oracle reports a rate-limit error. -/
def envOracleErr : Env where
  channelIdsRaw := "C01"
  slackResp := fun _ => ⟨true, none, some []⟩
  emojiFetch := none
  oracle := ⟨some ⟨some "rate limited", "serialized"⟩, none⟩
  parseJson := fun _ => none
  now := 0
  nowIso := "t"

/-- C7 witness: a rate-limited oracle yields exactly the prefixed 500
error body. -/
theorem oracleError_prefixed_500_witness :
    GET envOracleErr = ⟨500, .errorObj "OpenAI API error: rate limited"⟩ := by
  have h := oracleError_prefixed_500 envOracleErr []
    ⟨some "rate limited", "serialized"⟩ "rate limited" rfl rfl rfl (by decide)
  rw [h]
  decide

/-- C5: when the oracle content fails to parse as JSON, the pipeline
fails with the distinct parse-failure message built from a truncated
excerpt of the content — at most one hundred units, never the full
payload — and the endpoint returns it with status 500. -/
theorem parseFailure_truncated_500 (env : Env) (msgs : List String) (content : String)
    (hagg : fetchSlackFromMultipleChannels env = .ok msgs)
    (herr : env.oracle.error = none)
    (hcon : env.oracle.content = some content)
    (hp : env.parseJson content = none) :
    GET env = ⟨500, .errorObj (parseFailureError content)⟩
    ∧ parseFailureError content
        = "Failed to parse OpenAI response as JSON: " ++ strTake content 100 ++ "..."
    ∧ (strTake content 100).length ≤ 100 := by
  refine ⟨?_, rfl, ?_⟩
  · simp [GET, hagg, analyzeWithOpenAI, herr, hcon, hp]
  · have hlen : (strTake content 100).length = (content.data.take 100).length := rfl
    rw [hlen, List.length_take]
    exact min_le_left _ _

/-- A 110-unit oracle reply that is not valid JSON. -/
def longContent : String := ⟨List.replicate 110 'x'⟩

/-- Environment for C5: aggregation succeeds, the oracle returns content
the JSON parser rejects. -/
def envParseFail : Env where
  channelIdsRaw := "C01"
  slackResp := fun _ => ⟨true, none, some []⟩
  emojiFetch := none
  oracle := ⟨none, some longContent⟩
  parseJson := fun _ => none
  now := 0
  nowIso := "t"

/-- C5 witness: the 110-unit content produces the 500 parse-failure
response whose excerpt is capped at one hundred units. -/
theorem parseFailure_truncated_500_witness :
    GET envParseFail = ⟨500, .errorObj (parseFailureError longContent)⟩
    ∧ (strTake longContent 100).length ≤ 100
    ∧ longContent.length = 110 := by
  have h := parseFailure_truncated_500 envParseFail [] longContent rfl rfl rfl rfl
  exact ⟨h.1, h.2.2, by decide⟩

/-- The weighted sequence's length is the sum of the per-message tier
weights. -/
theorem weightedExpand_length (now : Rat) (l : List CleanedMessage) :
    (weightedExpand now l).length = (l.map (fun m => tierWeight now m.timestamp)).sum := by
  induction l with
  | nil => rfl
  | cons m rest ih =>
    simp only [weightedExpand, tierWeight, List.map_cons, List.sum_cons,
      List.length_append, ih]
    split
    · rfl
    · split <;> rfl

/-- C3: on every successful run, the reported sample size is the length
of the weighted sequence handed to the classifier, which is the sum of
the per-message tier weights over the aggregated cleaned messages (a
priority-weighted count, not the count of unique cleaned messages). -/
theorem sampleSize_weighted (env : Env) (p : MoodPayload)
    (h : GET env = ⟨200, .payload p⟩) :
    ∃ sorted, aggregateChannels env = .ok sorted
      ∧ fetchSlackFromMultipleChannels env = .ok (weightedExpand env.now sorted)
      ∧ p.sample_size = (weightedExpand env.now sorted).length
      ∧ p.sample_size = (sorted.map (fun m => tierWeight env.now m.timestamp)).sum := by
  cases hagg : aggregateChannels env with
  | error e =>
    have hG : GET env = ⟨500, .errorObj e⟩ := by
      simp [GET, fetchSlackFromMultipleChannels, hagg, Except.map]
    rw [hG] at h
    simp at h
  | ok sorted =>
    have hf : fetchSlackFromMultipleChannels env = .ok (weightedExpand env.now sorted) := by
      simp [fetchSlackFromMultipleChannels, hagg, Except.map]
    cases ha : analyzeWithOpenAI env (weightedExpand env.now sorted) with
    | error e =>
      have hG : GET env = ⟨500, .errorObj e⟩ := by simp [GET, hf, ha]
      rw [hG] at h
      simp at h
    | ok mood =>
      have hG : GET env = ⟨200, .payload
          ⟨mood, playlistsForMood mood.mood_label,
            (weightedExpand env.now sorted).length, env.nowIso⟩⟩ := by
        simp [GET, hf, ha]
      rw [hG] at h
      simp only [HttpResponse.mk.injEq, ResponseBody.payload.injEq, true_and] at h
      subst h
      exact ⟨sorted, rfl, hf, rfl, weightedExpand_length env.now sorted⟩

/-- The analysis record the JSON parser yields in the success
environment. -/
def moodParsed : MoodAnalysis := ⟨55, "Good", "steady", ["wins"], [], [":fire:"]⟩

/-- Environment for C3: one channel, one recent message, a parsing
oracle reply. -/
def envSuccess : Env where
  channelIdsRaw := "C01"
  slackResp := fun _ =>
    ⟨true, none, some [⟨"message", none, none, false, "hello team", some 999999, none⟩]⟩
  emojiFetch := none
  oracle := ⟨none, some "mood-json"⟩
  parseJson := fun s => if s = "mood-json" then some moodParsed else none
  now := 1000000
  nowIso := "2026-01-01T00:00:00.000Z"

/-- The payload the success environment produces. -/
def successPayload : MoodPayload :=
  ⟨⟨55, "Good", "steady", ["wins"], [], ["🔥"]⟩,
   ⟨"Feel Good Pop", "https://open.spotify.com/playlist/37i9dQZF1DXdPec7aLTmlC"⟩,
   3, "2026-01-01T00:00:00.000Z"⟩

/-- C3 witness: one message in the newest tier gives a weighted sequence
of length three, and the reported sample size is that three — the tier
sum — not the unique-message count one. -/
theorem sampleSize_weighted_witness :
    ∃ sorted, aggregateChannels envSuccess = .ok sorted
      ∧ fetchSlackFromMultipleChannels envSuccess
          = .ok (weightedExpand envSuccess.now sorted)
      ∧ successPayload.sample_size = (weightedExpand envSuccess.now sorted).length
      ∧ successPayload.sample_size
          = (sorted.map (fun m => tierWeight envSuccess.now m.timestamp)).sum := by
  have hagg : aggregateChannels envSuccess = .ok [⟨"hello team", 999999⟩] := rfl
  have hcond : (1000000 : Rat) - oneDaySecs < 999999 := by norm_num [oneDaySecs]
  have hexp : weightedExpand envSuccess.now [(⟨"hello team", 999999⟩ : CleanedMessage)]
      = ["hello team", "hello team", "hello team"] := by
    show weightedExpand 1000000 _ = _
    simp [weightedExpand, hcond]
  have hf : fetchSlackFromMultipleChannels envSuccess
      = .ok ["hello team", "hello team", "hello team"] := by
    simp [fetchSlackFromMultipleChannels, hagg, Except.map]
    exact hexp
  have hana : analyzeWithOpenAI envSuccess ["hello team", "hello team", "hello team"]
      = .ok ⟨55, "Good", "steady", ["wins"], [], ["🔥"]⟩ := rfl
  have hG : GET envSuccess = ⟨200, .payload successPayload⟩ := by
    have h3 : (["hello team", "hello team", "hello team"] : List String).length = 3 := rfl
    simp [GET, hf, hana, h3]
    rfl
  exact sampleSize_weighted envSuccess successPayload hG

/-- C8 counterexample: on the empty input string the conversion returns
the empty string, a degenerate output (the basic directory has no empty
key, and the JavaScript fallback returns the input itself). -/
theorem convertSlackEmojiToUnicode_empty_input :
    convertSlackEmojiToUnicode (fetchSlackEmojisResult none) "" = "" := by decide

/-- The colon wrapping of a name is never the empty string. -/
theorem emojiColon_ne_empty (n : String) : emojiColon n ≠ "" := by
  intro h
  have hd := congrArg String.data h
  simp [emojiColon] at hd

/-- The heuristic glyph lookup never returns the empty string. -/
theorem getUnicodeForEmojiName_ne_empty (n : String) : getUnicodeForEmojiName n ≠ "" := by
  unfold getUnicodeForEmojiName
  cases hb : basicEmojiMap.get (emojiColon n) with
  | none => exact emojiColon_ne_empty n
  | some v =>
    by_cases hv : v = ""
    · simpa [hv] using emojiColon_ne_empty n
    · simp [hv]

/-- Every value the directory fold ever stores is nonempty, provided the
accumulator's values are. -/
theorem foldl_dirStep_values_nonempty (entries : List (String × String)) (acc : OMap)
    (hacc : ∀ p ∈ acc, p.2 ≠ "") :
    ∀ p ∈ entries.foldl dirStep acc, p.2 ≠ "" := by
  induction entries generalizing acc with
  | nil => simpa using hacc
  | cons e rest ih =>
    refine ih (dirStep acc e) ?_
    intro p hp
    have hval : ∀ v : String, v ≠ "" → p ∈ ((emojiColon e.1, v) :: acc : OMap) → p.2 ≠ "" := by
      intro v hv hmem
      rcases List.mem_cons.mp hmem with hep | hmem
      · rw [hep]; exact hv
      · exact hacc p hmem
    unfold dirStep OMap.set at hp
    split at hp
    · refine hval _ ?_ hp
      cases hw : acc.get (emojiColon (strDrop e.2 6)) with
      | none =>
        simp only [hw]
        exact getUnicodeForEmojiName_ne_empty _
      | some w =>
        simp only [hw]
        by_cases hw0 : w = ""
        · simpa [hw0] using getUnicodeForEmojiName_ne_empty (strDrop e.2 6)
        · simp [hw0]
    · split at hp
      · exact hval _ (emojiColon_ne_empty e.1) hp
      · exact hval _ (getUnicodeForEmojiName_ne_empty e.1) hp

/-- All values of the map any emoji-fetch outcome produces are
nonempty. -/
theorem fetchSlackEmojisResult_values_nonempty (outcome : Option EmojiListResp) :
    ∀ p ∈ fetchSlackEmojisResult outcome, p.2 ≠ "" := by
  have hbasic : ∀ p ∈ basicEmojiMap, p.2 ≠ "" := by decide
  cases outcome with
  | none => simpa [fetchSlackEmojisResult] using hbasic
  | some resp =>
    by_cases hok : resp.ok
    · intro p hp
      rw [fetchSlackEmojisResult] at hp
      simp only [hok, Bool.not_true, if_false] at hp
      rcases List.mem_append.mp hp with hm | hm
      · exact foldl_dirStep_values_nonempty resp.emoji [] (by simp) p hm
      · exact hbasic p hm
    · intro p hp
      rw [fetchSlackEmojisResult] at hp
      simp only [hok] at hp
      exact hbasic p hp

/-- A successful map read yields a stored value. -/
theorem OMap.get_mem (m : OMap) (k v : String) (h : m.get k = some v) :
    ∃ p ∈ m, p.2 = v := by
  unfold OMap.get at h
  cases hf : m.find? (fun p => p.1 == k) with
  | none => rw [hf] at h; simp at h
  | some pr =>
    rw [hf] at h
    simp at h
    exact ⟨pr, List.mem_of_find?_eq_some hf, h⟩

/-- C8 (amended to nonempty inputs): for every emoji-fetch outcome and
every nonempty code, the conversion returns a nonempty string that is
either the directory's entry for the code or the code itself. -/
theorem convertSlackEmojiToUnicode_total (outcome : Option EmojiListResp) (code : String)
    (h : code ≠ "") :
    convertSlackEmojiToUnicode (fetchSlackEmojisResult outcome) code ≠ ""
    ∧ ((fetchSlackEmojisResult outcome).get code
          = some (convertSlackEmojiToUnicode (fetchSlackEmojisResult outcome) code)
        ∨ convertSlackEmojiToUnicode (fetchSlackEmojisResult outcome) code = code) := by
  unfold convertSlackEmojiToUnicode
  cases hg : (fetchSlackEmojisResult outcome).get code with
  | none => exact ⟨h, Or.inr rfl⟩
  | some v =>
    by_cases hv : v = ""
    · simp only [hv, if_pos rfl]
      exact ⟨h, Or.inr rfl⟩
    · simp only [if_neg hv]
      obtain ⟨p, hp, hpv⟩ := OMap.get_mem _ _ _ hg
      exact ⟨hpv ▸ fetchSlackEmojisResult_values_nonempty outcome p hp, Or.inl trivial⟩

/-- C8 witness: an unknown nonempty code converts to itself, which is
nonempty. -/
theorem convertSlackEmojiToUnicode_total_witness :
    convertSlackEmojiToUnicode (fetchSlackEmojisResult none) ":ghostly:" ≠ "" :=
  (convertSlackEmojiToUnicode_total none ":ghostly:" (by decide)).1

/-- Wrapping names in colons is injective. -/
theorem emojiColon_inj (a b : String) (h : emojiColon a = emojiColon b) : a = b := by
  have hd := congrArg String.data h
  simp only [emojiColon, String.data_append] at hd
  exact String.ext (List.append_cancel_left (List.append_cancel_right hd))

/-- Reading the key just assigned returns the assigned value. -/
theorem OMap.get_cons_self (m : OMap) (k v : String) :
    OMap.get ((k, v) :: m) k = some v := by
  unfold OMap.get
  rw [List.find?_cons_of_pos _ (by simp)]
  rfl

/-- Assigning one key leaves reads of other keys unchanged. -/
theorem OMap.get_cons_ne (m : OMap) (k k' v : String) (h : k' ≠ k) :
    OMap.get ((k', v) :: m) k = m.get k := by
  unfold OMap.get
  rw [List.find?_cons_of_neg _ (by simp [h])]

/-- One directory iteration only assigns the colon code of its own entry
name. -/
theorem dirStep_get_ne (acc : OMap) (e : String × String) (k : String)
    (h : emojiColon e.1 ≠ k) :
    (dirStep acc e).get k = acc.get k := by
  unfold dirStep OMap.set
  split
  · exact OMap.get_cons_ne _ _ _ _ h
  split
  · exact OMap.get_cons_ne _ _ _ _ h
  · exact OMap.get_cons_ne _ _ _ _ h

/-- Folding over entries none of which owns the key leaves its read
unchanged. -/
theorem foldl_dirStep_get_untouched (entries : List (String × String)) (acc : OMap)
    (k : String) (h : ∀ e ∈ entries, emojiColon e.1 ≠ k) :
    (entries.foldl dirStep acc).get k = acc.get k := by
  induction entries generalizing acc with
  | nil => rfl
  | cons e rest ih =>
    rw [List.foldl_cons, ih _ (fun e' he' => h e' (List.mem_cons_of_mem _ he')),
      dirStep_get_ne _ _ _ (h e (List.mem_cons_self _ _))]

/-- A successful read after the fold stems from the accumulator or from
some processed entry's name. -/
theorem foldl_dirStep_get_some (entries : List (String × String)) (acc : OMap)
    (k v : String) (h : (entries.foldl dirStep acc).get k = some v) :
    acc.get k = some v ∨ ∃ e ∈ entries, emojiColon e.1 = k := by
  induction entries generalizing acc with
  | nil => exact Or.inl h
  | cons e rest ih =>
    rw [List.foldl_cons] at h
    rcases ih _ h with hacc | ⟨e', he', hk⟩
    · by_cases hek : emojiColon e.1 = k
      · exact Or.inr ⟨e, List.mem_cons_self _ _, hek⟩
      · rw [dirStep_get_ne _ _ _ hek] at hacc
        exact Or.inl hacc
    · exact Or.inr ⟨e', List.mem_cons_of_mem _ he', hk⟩

/-- A member of a take-prefix sits at an index below the cut. -/
theorem mem_take_index (l : List (String × String)) (i : Nat) (e : String × String)
    (h : e ∈ l.take i) : ∃ j, j < i ∧ l.get? j = some e := by
  obtain ⟨n, hn⟩ := List.mem_iff_get?.mp h
  have hlen : n < (l.take i).length := (List.get?_eq_some.mp hn).1
  have hni : n < i := lt_of_lt_of_le hlen (by simp [List.length_take_le])
  exact ⟨n, hni, by rw [← List.get?_take hni]; exact hn⟩

/-- A value built as the alias marker followed by a target carries the
marker. -/
theorem strStartsWith_alias (t : String) : strStartsWith ("alias:" ++ t) "alias:" = true := by
  unfold strStartsWith
  rw [String.data_append, List.isPrefixOf_iff_prefix]
  exact List.prefix_append _ _

/-- Dropping the alias marker recovers the target. -/
theorem strDrop_alias (t : String) : strDrop ("alias:" ++ t) 6 = t := by
  apply String.ext
  show ("alias:" ++ t).data.drop 6 = t.data
  rw [String.data_append]
  have h6 : ("alias:".data).length = 6 := rfl
  rw [← h6]
  exact List.drop_left _ _

/-- A read that succeeds on the left map succeeds identically on the
spread of the two maps. -/
theorem OMap.get_append_left (m1 m2 : OMap) (k v : String) (h : m1.get k = some v) :
    ((m1 ++ m2 : OMap)).get k = some v := by
  unfold OMap.get at h ⊢
  rw [List.find?_append]
  cases hf : m1.find? (fun p => p.1 == k) with
  | none => rw [hf] at h; simp at h
  | some pr =>
    rw [hf] at h
    simpa [Option.or] using h

/-- C10: alias resolution is order-dependent.  If the directory's entry
at position `i` aliases a target that is absent from the static basic
table and was not assigned by any earlier entry, the alias resolves to
the literal colon code of the target — in the final merged map as well —
regardless of what later entries or the basic-table merge would have said
about the target. -/
theorem aliasResolution_literal (entries : List (String × String)) (i : Nat)
    (name target : String)
    (hi : entries.get? i = some (name, "alias:" ++ target))
    (hbasic : basicEmojiMap.get (emojiColon target) = none)
    (hearlier : ∀ j, j < i → ∀ e, entries.get? j = some e → e.1 ≠ target)
    (hnodup : (entries.map Prod.fst).Nodup) :
    (fetchSlackEmojisResult (some ⟨true, none, entries⟩)).get (emojiColon name)
      = some (emojiColon target) := by
  obtain ⟨hlen, _⟩ := List.get?_eq_some.mp hi
  have hgetElem : entries[i] = (name, "alias:" ++ target) := by
    rw [List.getElem_eq_iff, ← List.get?_eq_getElem?]
    exact hi
  have hdrop : entries.drop i = (name, "alias:" ++ target) :: entries.drop (i + 1) := by
    rw [List.drop_eq_getElem_cons hlen, hgetElem]
  have hsplit : entries = entries.take i ++ (name, "alias:" ++ target) :: entries.drop (i + 1) := by
    rw [← hdrop]
    exact (List.take_append_drop i entries).symm
  have hpre_none : ((entries.take i).foldl dirStep []).get (emojiColon target) = none := by
    cases hg : ((entries.take i).foldl dirStep []).get (emojiColon target) with
    | none => rfl
    | some v =>
      exfalso
      rcases foldl_dirStep_get_some _ _ _ _ hg with hacc | ⟨e, he, hk⟩
      · simp [OMap.get] at hacc
      · obtain ⟨j, hj, hje⟩ := mem_take_index _ _ _ he
        exact hearlier j hj e hje (emojiColon_inj _ _ hk)
  have hstep : dirStep ((entries.take i).foldl dirStep []) (name, "alias:" ++ target)
      = (emojiColon name, emojiColon target) :: (entries.take i).foldl dirStep [] := by
    simp only [dirStep, OMap.set, strStartsWith_alias, if_true, strDrop_alias, hpre_none,
      getUnicodeForEmojiName, hbasic]
  have hpost : ∀ e ∈ entries.drop (i + 1), emojiColon e.1 ≠ emojiColon name := by
    intro e he hk
    have hename : e.1 = name := emojiColon_inj _ _ hk
    have hmapnodup := hnodup
    rw [hsplit, List.map_append, List.map_cons] at hmapnodup
    have hnotin : name ∉ (entries.drop (i + 1)).map Prod.fst :=
      (List.nodup_cons.mp (List.nodup_append.mp hmapnodup).2.1).1
    exact hnotin (hename ▸ List.mem_map_of_mem Prod.fst he)
  have hbuild : (buildDirMap entries).get (emojiColon name) = some (emojiColon target) := by
    unfold buildDirMap
    conv_lhs => rw [hsplit]
    rw [List.foldl_append, List.foldl_cons, hstep,
      foldl_dirStep_get_untouched _ _ _ hpost]
    exact OMap.get_cons_self _ _ _
  have hfetch : fetchSlackEmojisResult (some ⟨true, none, entries⟩)
      = buildDirMap entries ++ basicEmojiMap := rfl
  rw [hfetch]
  exact OMap.get_append_left _ _ _ _ hbuild

/-- C10 witness: a single alias entry to an unknown target resolves to
the literal colon code in the final map. -/
theorem aliasResolution_literal_witness :
    (fetchSlackEmojisResult (some ⟨true, none, [("blob", "alias:ghost")]⟩)).get ":blob:"
      = some ":ghost:" := by
  have h := aliasResolution_literal [("blob", "alias:ghost")] 0 "blob" "ghost"
    rfl (by decide) (fun j hj => absurd hj (Nat.not_lt_zero j)) (by decide)
  exact h

/-- The mention matcher only fires on an opening bracket. -/
theorem matchMention_none (c : Char) (cs : List Char) (h : c ≠ '<') :
    matchMention (c :: cs) = none := by
  unfold matchMention
  split <;> simp_all

/-- The link matcher only fires on an opening bracket. -/
theorem matchHttp_none (c : Char) (cs : List Char) (h : c ≠ '<') :
    matchHttp (c :: cs) = none := by
  unfold matchHttp
  split <;> simp_all

/-- The angle matcher only fires on an opening bracket. -/
theorem matchAngle_none (c : Char) (cs : List Char) (h : c ≠ '<') :
    matchAngle (c :: cs) = none := by
  unfold matchAngle
  split <;> simp_all

/-- The emoji matcher only fires on a colon. -/
theorem matchEmoji_none (c : Char) (cs : List Char) (h : c ≠ ':') :
    matchEmoji (c :: cs) = none := by
  unfold matchEmoji
  split <;> simp_all

/-- A stripping pass whose matcher fires only on a trigger character is
the identity on lists free of that character. -/
theorem stripScan_id (m : List Char → Option (List Char)) (t : Char)
    (hm : ∀ c cs, c ≠ t → m (c :: cs) = none) :
    ∀ (fuel : Nat) (l : List Char), t ∉ l → stripScan m fuel l = l := by
  intro fuel
  induction fuel with
  | zero => intro l _; rfl
  | succ n ih =>
    intro l hl
    cases l with
    | nil => rfl
    | cons c cs =>
      have hc : c ≠ t := fun he => hl (he ▸ List.mem_cons_self c cs)
      simp only [stripScan, hm c cs hc]
      rw [ih cs (fun hmem => hl (List.mem_cons_of_mem c hmem))]

/-- Top-level form of the stripping identity. -/
theorem runStrip_id (m : List Char → Option (List Char)) (t : Char)
    (hm : ∀ c cs, c ≠ t → m (c :: cs) = none)
    (l : List Char) (hl : t ∉ l) : runStrip m l = l :=
  stripScan_id m t hm l.length l hl

/-- A literal replacement is the identity on lists free of the literal's
first character. -/
theorem replScan_id (lit rep : List Char) (t : Char) (tl : List Char)
    (hlit : lit = t :: tl) :
    ∀ (fuel : Nat) (l : List Char), t ∉ l → replScan lit rep fuel l = l := by
  intro fuel
  induction fuel with
  | zero => intro l _; rfl
  | succ n ih =>
    intro l hl
    cases l with
    | nil => rfl
    | cons c cs =>
      have hc : c ≠ t := fun he => hl (he ▸ List.mem_cons_self c cs)
      have hpref : lit.isPrefixOf (c :: cs) = false := by
        rw [hlit]
        simp [List.isPrefixOf, beq_eq_false_iff_ne, Ne.symm hc]
      simp only [replScan, hpref, Bool.false_eq_true, if_false]
      rw [ih cs (fun hmem => hl (List.mem_cons_of_mem c hmem))]

/-- Top-level form of the literal-replacement identity. -/
theorem runRepl_id (lit rep : List Char) (t : Char) (tl : List Char)
    (hlit : lit = t :: tl) (l : List Char) (hl : t ∉ l) : runRepl lit rep l = l :=
  replScan_id lit rep t tl hlit l.length l hl

/-- No two adjacent whitespace characters. -/
def noWsRun : List Char → Bool
  | [] => true
  | [_] => true
  | c1 :: c2 :: cs => !(isJsWs c1 && isJsWs c2) && noWsRun (c2 :: cs)

/-- Every whitespace character present is the plain space. -/
def spacesOnly (l : List Char) : Prop := ∀ c ∈ l, isJsWs c = true → c = ' '

/-- Inversion for the no-run property below a head. -/
theorem noWsRun_cons_inv (c : Char) (l : List Char) (h : noWsRun (c :: l) = true) :
    noWsRun l = true ∧ ∀ d ds, l = d :: ds → (isJsWs c && isJsWs d) = false := by
  cases l with
  | nil => exact ⟨rfl, fun d ds h' => nomatch h'⟩
  | cons d ds =>
    unfold noWsRun at h
    rw [Bool.and_eq_true] at h
    refine ⟨h.2, fun d' ds' he => ?_⟩
    injection he with he1 _
    rw [← he1]
    exact (Bool.not_eq_true' _).mp h.1

/-- Collapsing below a non-whitespace head proceeds on the tail. -/
theorem collapseWs_cons_not_ws (c : Char) (cs : List Char) (h : isJsWs c = false) :
    collapseWs (c :: cs) = c :: collapseWs cs := by
  cases cs with
  | nil => simp [collapseWs, h]
  | cons d ds => simp [collapseWs, h]

/-- Collapsing a two-headed list whose pair is not a whitespace run keeps
a head. -/
theorem collapseWs_cons_pair (c d : Char) (ds : List Char)
    (h : (isJsWs c && isJsWs d) = false) :
    collapseWs (c :: d :: ds) = (if isJsWs c then ' ' else c) :: collapseWs (d :: ds) := by
  simp [collapseWs, h]

/-- A non-whitespace head preserves the no-run property. -/
theorem noWsRun_cons_left (c : Char) (l : List Char) (hc : isJsWs c = false)
    (hl : noWsRun l = true) : noWsRun (c :: l) = true := by
  cases l with
  | nil => rfl
  | cons d ds => simp [noWsRun, hc, hl]

/-- A non-whitespace second character preserves the no-run property for
any head. -/
theorem noWsRun_cons_pair (x d : Char) (l : List Char) (hd : isJsWs d = false)
    (h : noWsRun (d :: l) = true) : noWsRun (x :: d :: l) = true := by
  simp [noWsRun, hd, h]

/-- The collapse pass leaves no whitespace run. -/
theorem collapseWs_noWsRun : ∀ l : List Char, noWsRun (collapseWs l) = true := by
  intro l
  induction l with
  | nil => rfl
  | cons c cs ih =>
    cases cs with
    | nil =>
      by_cases h : isJsWs c = true <;> simp [collapseWs, h, noWsRun]
    | cons d ds =>
      by_cases h2 : isJsWs d = true
      · by_cases h1 : isJsWs c = true
        · simpa [collapseWs, h1, h2] using ih
        · have h1f : isJsWs c = false := by simpa using h1
          rw [collapseWs_cons_not_ws c (d :: ds) h1f]
          exact noWsRun_cons_left c _ h1f ih
      · have h2f : isJsWs d = false := by simpa using h2
        have hcd : collapseWs (d :: ds) = d :: collapseWs ds :=
          collapseWs_cons_not_ws d ds h2f
        rw [collapseWs_cons_pair c d ds (by simp [h2f]), hcd]
        exact noWsRun_cons_pair _ d _ h2f (hcd ▸ ih)

/-- The collapse pass emits the plain space for every whitespace
character. -/
theorem collapseWs_spacesOnly : ∀ l : List Char, spacesOnly (collapseWs l) := by
  intro l
  induction l with
  | nil => intro c hc _; simp [collapseWs] at hc
  | cons c cs ih =>
    cases cs with
    | nil =>
      intro x hx hwx
      by_cases h : isJsWs c = true
      · simp [collapseWs, h] at hx
        rw [hx]
      · simp [collapseWs, h] at hx
        rw [hx] at hwx
        exact absurd hwx (by simpa using h)
    | cons d ds =>
      intro x hx hwx
      by_cases hpair : (isJsWs c && isJsWs d) = true
      · rw [show collapseWs (c :: d :: ds) = collapseWs (d :: ds) from by
          simp [collapseWs, hpair]] at hx
        exact ih x hx hwx
      · have hpf : (isJsWs c && isJsWs d) = false := by simpa using hpair
        rw [collapseWs_cons_pair c d ds hpf] at hx
        rcases List.mem_cons.mp hx with hx | hx
        · by_cases hc : isJsWs c = true
          · simpa [hc] using hx
          · have hcf : isJsWs c = false := by simpa using hc
            rw [hx] at hwx
            simp [hcf] at hwx
        · exact ih x hx hwx

/-- On a run-free, spaces-only list the collapse pass is the identity. -/
theorem collapseWs_eq_self (l : List Char) (h1 : noWsRun l = true) (h2 : spacesOnly l) :
    collapseWs l = l := by
  induction l with
  | nil => rfl
  | cons c cs ih =>
    cases cs with
    | nil =>
      by_cases h : isJsWs c = true
      · have := h2 c (List.mem_cons_self _ _) h
        simp [collapseWs, h, this]
      · simp [collapseWs, h]
    | cons d ds =>
      obtain ⟨htail, hpairs⟩ := noWsRun_cons_inv c (d :: ds) h1
      have hpair : (isJsWs c && isJsWs d) = false := hpairs d ds rfl
      have hhead : (if isJsWs c then ' ' else c) = c := by
        by_cases hc : isJsWs c = true
        · rw [if_pos hc]
          exact (h2 c (List.mem_cons_self _ _) hc).symm
        · rw [if_neg hc]
      rw [collapseWs_cons_pair c d ds hpair, hhead,
        ih htail (fun x hx hwx => h2 x (List.mem_cons_of_mem c hx) hwx)]

/-- The head surviving a dropWhile fails the predicate. -/
theorem dropWhile_head_false (p : Char → Bool) :
    ∀ (l : List Char) (c : Char), (l.dropWhile p).head? = some c → p c = false := by
  intro l
  induction l with
  | nil => intro c h; simp at h
  | cons a as ih =>
    intro c h
    by_cases hp : p a = true
    · rw [List.dropWhile_cons_of_pos hp] at h
      exact ih c h
    · have hpf : p a = false := by simpa using hp
      rw [List.dropWhile_cons_of_neg (by simp [hpf])] at h
      simp at h
      rw [← h]
      exact hpf

/-- A list whose head fails the predicate is untouched by dropWhile. -/
theorem dropWhile_eq_self_of_head (p : Char → Bool) (l : List Char)
    (h : ∀ c, l.head? = some c → p c = false) : l.dropWhile p = l := by
  cases l with
  | nil => rfl
  | cons a as =>
    have := h a rfl
    rw [List.dropWhile_cons_of_neg (by simp [this])]

/-- The last character a trim keeps fails the whitespace predicate. -/
theorem trimJs_getLast?_false (l : List Char) (c : Char)
    (h : (trimJs l).getLast? = some c) : isJsWs c = false := by
  unfold trimJs at h
  rw [List.getLast?_reverse] at h
  exact dropWhile_head_false isJsWs _ c h

/-- The first character a trim keeps fails the whitespace predicate. -/
theorem trimJs_head?_false (l : List Char) (c : Char)
    (h : (trimJs l).head? = some c) : isJsWs c = false := by
  unfold trimJs at h
  rw [List.head?_reverse] at h
  set A := l.dropWhile isJsWs with hA
  set B := A.reverse.dropWhile isJsWs with hB
  have hBne : B ≠ [] := by
    intro hnil
    rw [hnil] at h
    simp at h
  obtain ⟨s, hs⟩ := List.dropWhile_suffix (l := A.reverse) isJsWs
  rw [← hB] at hs
  have hlast : B.getLast? = A.reverse.getLast? := by
    rw [← hs]
    exact (List.getLast?_append_of_ne_nil s hBne).symm
  rw [hlast, List.getLast?_reverse] at h
  exact dropWhile_head_false isJsWs l c h

/-- Trimming is idempotent. -/
theorem trimJs_trimJs (l : List Char) : trimJs (trimJs l) = trimJs l := by
  conv_lhs => rw [trimJs]
  rw [dropWhile_eq_self_of_head isJsWs (trimJs l) (trimJs_head?_false l)]
  rw [dropWhile_eq_self_of_head isJsWs (trimJs l).reverse
    (fun c hc => trimJs_getLast?_false l c (by rwa [List.head?_reverse] at hc))]
  exact List.reverse_reverse _

/-- The no-run property passes to a suffix. -/
theorem noWsRun_append_right (a b : List Char) (h : noWsRun (a ++ b) = true) :
    noWsRun b = true := by
  induction a with
  | nil => exact h
  | cons c a' ih =>
    refine ih ?_
    exact (noWsRun_cons_inv c (a' ++ b) h).1

/-- The no-run property passes to a prefix. -/
theorem noWsRun_append_left (a b : List Char) (h : noWsRun (a ++ b) = true) :
    noWsRun a = true := by
  induction a with
  | nil => rfl
  | cons c a' ih =>
    obtain ⟨htail, hpairs⟩ := noWsRun_cons_inv c (a' ++ b) h
    cases ha' : a' with
    | nil => rfl
    | cons d ds =>
      have hpair : (isJsWs c && isJsWs d) = false := by
        refine hpairs d (ds ++ b) ?_
        rw [ha']
        rfl
      have hrest : noWsRun (d :: ds) = true := by
        rw [ha'] at ih htail
        exact ih htail
      simp [noWsRun, hpair, hrest]

/-- A trim keeps an infix: the input splits around its trim. -/
theorem trimJs_decomp (l : List Char) : ∃ s t, l = s ++ trimJs l ++ t := by
  obtain ⟨s1, hs1⟩ := List.dropWhile_suffix (l := l) isJsWs
  obtain ⟨s2, hs2⟩ := List.dropWhile_suffix (l := (l.dropWhile isJsWs).reverse) isJsWs
  refine ⟨s1, s2.reverse, ?_⟩
  have hA : l.dropWhile isJsWs = trimJs l ++ s2.reverse := by
    have hrev := congrArg List.reverse hs2
    rw [List.reverse_append, List.reverse_reverse] at hrev
    exact hrev.symm
  calc l = s1 ++ l.dropWhile isJsWs := hs1.symm
    _ = s1 ++ (trimJs l ++ s2.reverse) := by rw [hA]
    _ = s1 ++ trimJs l ++ s2.reverse := (List.append_assoc _ _ _).symm

/-- The whitespace tail of the cleaning pipeline (collapse then trim) is
idempotent. -/
theorem wsPart_fixpoint (u : List Char) :
    trimJs (collapseWs (trimJs (collapseWs u))) = trimJs (collapseWs u) := by
  obtain ⟨s1, s2, hdecomp⟩ := trimJs_decomp (collapseWs u)
  have hn : noWsRun (trimJs (collapseWs u)) = true := by
    have hnv : noWsRun (collapseWs u) = true := collapseWs_noWsRun u
    rw [hdecomp] at hnv
    exact noWsRun_append_right s1 _ (noWsRun_append_left _ s2 hnv)
  have hsp : spacesOnly (trimJs (collapseWs u)) := by
    intro c hc hw
    refine collapseWs_spacesOnly u c ?_ hw
    rw [hdecomp]
    exact List.mem_append.mpr (Or.inl (List.mem_append.mpr (Or.inr hc)))
  rw [collapseWs_eq_self _ hn hsp]
  exact trimJs_trimJs (collapseWs u)

/-- Conditional idempotence of the cleaning pipeline on character
lists. -/
theorem cleanList_idem_of_plain (l : List Char)
    (h1 : '<' ∉ cleanList l) (h2 : '&' ∉ cleanList l) (h3 : ':' ∉ cleanList l) :
    cleanList (cleanList l) = cleanList l := by
  obtain ⟨u, hu⟩ : ∃ u, cleanList l = trimJs (collapseWs u) := ⟨_, rfl⟩
  generalize hT : cleanList l = T at h1 h2 h3 hu ⊢
  have e1 : runStrip matchMention T = T := runStrip_id _ '<' matchMention_none T h1
  have e2 : runStrip matchHttp T = T := runStrip_id _ '<' matchHttp_none T h1
  have e3 : runStrip matchAngle T = T := runStrip_id _ '<' matchAngle_none T h1
  have e4 : runRepl ['&', 'a', 'm', 'p', ';'] ['&'] T = T :=
    runRepl_id _ _ '&' _ rfl T h2
  have e5 : runRepl ['&', 'l', 't', ';'] ['<'] T = T :=
    runRepl_id _ _ '&' _ rfl T h2
  have e6 : runRepl ['&', 'g', 't', ';'] ['>'] T = T :=
    runRepl_id _ _ '&' _ rfl T h2
  have e7 : runStrip matchEmoji T = T := runStrip_id _ ':' matchEmoji_none T h3
  calc cleanList T = trimJs (collapseWs T) := by
        simp only [cleanList, e1, e2, e3, e4, e5, e6, e7]
    _ = trimJs (collapseWs (trimJs (collapseWs u))) := by rw [hu]
    _ = trimJs (collapseWs u) := wsPart_fixpoint u
    _ = T := hu.symm

/-- C4 (amended): normalization is idempotent on every input whose
cleaned form contains no angle bracket, ampersand or colon; in general a
second pass can strip further, because entity decoding runs after markup
stripping and can expose a fresh markup token (see the
counterexample). -/
theorem cleanSlackText_idem_of_plain (s : String)
    (h1 : '<' ∉ (cleanSlackText s).data)
    (h2 : '&' ∉ (cleanSlackText s).data)
    (h3 : ':' ∉ (cleanSlackText s).data) :
    cleanSlackText (cleanSlackText s) = cleanSlackText s := by
  have hmk : ∀ u : String, cleanSlackText u = ⟨cleanList u.data⟩ := fun _ => rfl
  have hdata : ∀ u : String, (cleanSlackText u).data = cleanList u.data := by
    intro u
    rw [hmk u]
  apply String.ext
  rw [hdata (cleanSlackText s), hdata s]
  exact cleanList_idem_of_plain s.data (hdata s ▸ h1) (hdata s ▸ h2) (hdata s ▸ h3)

/-- C4 witness: a plain cleaned string is a fixed point of
normalization. -/
theorem cleanSlackText_idem_of_plain_witness :
    cleanSlackText (cleanSlackText "hello   world ") = cleanSlackText "hello   world "
    ∧ cleanSlackText "hello   world " = "hello world" :=
  ⟨cleanSlackText_idem_of_plain "hello   world " (by decide) (by decide) (by decide),
   by decide⟩
